import Mathlib

/-!
Verification of the image-enrichment pipeline of `card_gen/backend/api.py`.

The Python source is shallowly embedded: pure helpers become Lean
functions over `String` / `List Char` (ASCII semantics for case folding
and character classes), the network collaborators (HTTP HEAD probe, the
Wikipedia search API, the vision judge, `random.choice`) become an
explicit `Env` of oracles, and the two `functools.lru_cache` decorated
functions thread their memo tables explicitly.  The Python exceptions
that the source catches are modelled by `Option` results of the oracles.
-/

namespace CardGen

/-! ### String primitives (models of the Python string/regex operations) -/

/-- Python `str.lower()` (ASCII). -/
def pyLower (s : String) : String := String.mk (s.toList.map Char.toLower)

/-- Python `str.upper()` (ASCII). -/
def pyUpper (s : String) : String := String.mk (s.toList.map Char.toUpper)

/-- Python `s.startswith(pre)`. -/
def startsWithS (s pre : String) : Bool := pre.toList.isPrefixOf s.toList

/-- Python `s.endswith(suf)` (list-level). -/
def endsWithL (l suf : List Char) : Bool := suf.reverse.isPrefixOf l.reverse

/-- A `\w` character of the regexes in the source (ASCII). -/
def isWordChar (c : Char) : Bool := c.isAlphanum || c = '_'

/-- Maximal runs of characters satisfying `p`; models `re.findall` with a
single character class and, for the whitespace complement, `str.split()`. -/
def runsGo (p : Char → Bool) : List Char → List Char → List (List Char)
  | [], acc => if acc.isEmpty then [] else [acc.reverse]
  | c :: cs, acc =>
    if p c then runsGo p cs (c :: acc)
    else if acc.isEmpty then runsGo p cs []
    else acc.reverse :: runsGo p cs []

/-- Model of `re.findall(r"\w+", s)`. -/
def findallWords (s : String) : List String :=
  (runsGo isWordChar s.toList []).map String.mk

/-- Python `str.split()` with no argument: split on whitespace runs. -/
def pySplitWs (s : String) : List String :=
  (runsGo (fun c => !c.isWhitespace) s.toList []).map String.mk

/-- Python `str.split(sep)` for a one-character separator (keeps empties). -/
def splitCharGo (sep : Char) : List Char → List Char → List (List Char)
  | [], acc => [acc.reverse]
  | c :: cs, acc =>
    if c = sep then acc.reverse :: splitCharGo sep cs []
    else splitCharGo sep cs (c :: acc)

def splitChar (sep : Char) (s : List Char) : List (List Char) := splitCharGo sep s []

/-- Python `str.strip()`. -/
def pyStrip (s : String) : String :=
  String.mk (((s.toList.dropWhile Char.isWhitespace).reverse.dropWhile Char.isWhitespace).reverse)

/-- Python `needle in hay` on strings. -/
def isSubstrL (needle : List Char) : List Char → Bool
  | [] => needle.isEmpty
  | c :: cs => needle.isPrefixOf (c :: cs) || isSubstrL needle cs

def isSubstrS (needle hay : String) : Bool := isSubstrL needle.toList hay.toList

/-- Suffix of the list after the last occurrence of `sep`, `none` when
`sep` does not occur; models `s.split(sep)[-1]` for a separator with no
self-overlap (such as `"File:"`). -/
def afterLastL (sep : List Char) : List Char → Option (List Char)
  | [] => none
  | c :: cs =>
    match afterLastL sep cs with
    | some r => some r
    | none =>
      if sep.isPrefixOf (c :: cs) then some ((c :: cs).drop sep.length) else none

/-- Python `s.replace(pat, "")`, fuelled by the input length (each step
consumes at least one character, so the fuel never runs out). -/
def removeAllGo (pat : List Char) : Nat → List Char → List Char
  | _, [] => []
  | 0, s => s
  | fuel + 1, c :: cs =>
    if !pat.isEmpty && pat.isPrefixOf (c :: cs) then
      removeAllGo pat fuel ((c :: cs).drop pat.length)
    else c :: removeAllGo pat fuel cs

def removeAllS (pat s : String) : String :=
  String.mk (removeAllGo pat.toList s.toList.length s.toList)

/-- Python `s.replace(a, b)` for one-character `a`, `b`. -/
def replaceChar (a b : Char) (s : String) : String :=
  String.mk (s.toList.map (fun c => if c = a then b else c))

/-! ### Image extensions and URL filename helpers -/

def imageExts : List String := ["jpg", "jpeg", "png", "svg", "gif"]

/-- Model of `re.search(r"\.(jpg|jpeg|png|svg|gif)$", s, re.IGNORECASE)` as a test. -/
def hasImageExt (s : String) : Bool :=
  imageExts.any (fun e => endsWithL (s.toList.map Char.toLower) ('.' :: e.toList))

/-- Model of `re.sub(r"\.(jpg|jpeg|png|svg|gif)$", "", s, flags=re.IGNORECASE)`:
drop a trailing recognised extension (the five suffixes are mutually
exclusive, so at most one can match at the end). -/
def stripExt (s : String) : String :=
  match imageExts.find? (fun e => endsWithL (s.toList.map Char.toLower) ('.' :: e.toList)) with
  | some e => String.mk (s.toList.take (s.toList.length - (e.toList.length + 1)))
  | none => s

/-- Model of `re.sub(r"^\d+px-", "", s)`: the anchored pattern can only strip the
maximal leading digit run followed by `px-`. -/
def stripPx (s : List Char) : List Char :=
  let ds := s.takeWhile Char.isDigit
  if !ds.isEmpty && ((s.drop ds.length).take 3 = ['p', 'x', '-']) then
    s.drop (ds.length + 3)
  else s

/-! ### URL scheme detection (`urllib.parse.urlparse(url).scheme`) -/

/-- A character CPython accepts inside a URL scheme. -/
def schemeChar (c : Char) : Bool := c.isAlphanum || c = '+' || c = '-' || c = '.'

/-- Text before the first `:`, if any. -/
def beforeColon : List Char → Option (List Char)
  | [] => none
  | c :: cs =>
    if c = ':' then some [] else (beforeColon cs).map (fun r => c :: r)

/-- Whether `urlparse(url).scheme` is non-empty: CPython takes the text
before the first `:` when it is non-empty, begins with an ASCII letter and
consists only of letters, digits, `+`, `-`, `.`. -/
def urlHasScheme (url : String) : Bool :=
  match beforeColon url.toList with
  | none => false
  | some pre =>
    !pre.isEmpty &&
      (match pre with
       | [] => false
       | c :: _ => c.isAlpha) &&
      pre.all schemeChar

/-! ### UTF-8 percent-encoding (`urllib.parse.quote`, `safe='/'`) -/

def utf8Bytes (c : Char) : List Nat :=
  let n := c.toNat
  if n < 128 then [n]
  else if n < 2048 then [192 + n / 64, 128 + n % 64]
  else if n < 65536 then [224 + n / 4096, 128 + n / 64 % 64, 128 + n % 64]
  else [240 + n / 262144, 128 + n / 4096 % 64, 128 + n / 64 % 64, 128 + n % 64]

def hexDigit (n : Nat) : Char :=
  if n < 10 then Char.ofNat (48 + n) else Char.ofNat (55 + n)

/-- Bytes `quote` leaves literal: ASCII letters, digits, `_.-~` and `/`. -/
def quoteSafe (c : Char) : Bool :=
  c.isAlphanum || c = '_' || c = '.' || c = '-' || c = '~' || c = '/'

def quoteByte (b : Nat) : List Char :=
  if b < 128 && quoteSafe (Char.ofNat b) then [Char.ofNat b]
  else ['%', hexDigit (b / 16), hexDigit (b % 16)]

def pyQuote (s : String) : String :=
  String.mk (((s.toList.map (fun c => ((utf8Bytes c).map quoteByte).foldr
    (fun a b => a ++ b) [])).foldr (fun a b => a ++ b) []))

/-! ### Oracle environment

The network collaborators of `api.py` as a deterministic oracle:
`headStatus` is the status of `requests.head` (`none` models a raised
transport error/timeout), `apiFiles` is the list of file titles a
strategy attempt ends up with after the page / full-text lookups of
`search_wikipedia_images` (`none` models an exception, a non-200 status
or an empty page set — observably identical, all continue the loop; the
requests and `response.json()` calls all happen before the pure filename
processing, so a failed attempt contributes no filenames), `judge` is the
text of the vision response (`none` models a raised error), and `pick`
chooses the index used by `random.choice`. -/
structure Env where
  headStatus : String → Option Nat
  apiFiles : String → Option (List String)
  judge : String → String → String → String → Option String
  pick : List String → Nat

/-! ### `verify_url_exists` (lines 86-104) with its `lru_cache(256)` -/

abbrev UrlMemo := List (String × Bool)

def memoLookup (m : UrlMemo) (url : String) : Option Bool :=
  (m.find? (fun p => p.1 == url)).map (fun p => p.2)

/-- The body of `verify_url_exists`: no scheme rejects without a network
call; otherwise a HEAD status strictly below 400 means the URL exists and
any raised error means it does not. -/
def verifyBody (env : Env) (url : String) : Bool :=
  if urlHasScheme url then
    match env.headStatus url with
    | some code => decide (code < 400)
    | none => false
  else false

/-- Model of `verify_url_exists` with the `lru_cache(maxsize=256)` explicit:
entries are most-recently-used first, a hit is bumped to the front, a
miss inserts at the front and evicts beyond 256.  Returns
`(result, memo, network request issued)`. -/
def verifyUrlExists (env : Env) (m : UrlMemo) (url : String) : Bool × UrlMemo × Bool :=
  match memoLookup m url with
  | some b => (b, (url, b) :: m.filter (fun p => !(p.1 == url)), false)
  | none =>
    let r := verifyBody env url
    (r, ((url, r) :: m.filter (fun p => !(p.1 == url))).take 256, urlHasScheme url)

/-! ### `wikimedia_to_wikipedia_url` (lines 268-311) -/

/-- One position of `re.search(r"/thumb/.+?/([^/]+)/[^/]*$", url)`: given
the suffix `S` that follows an occurrence of `/thumb/`, the match (if any)
is forced by the end anchor: the tail `[^/]*$` is the final `/`-segment of
`S`, the group `([^/]+)` is the second-to-last segment (which must be
non-empty), and `.+?` is everything before those two segments (which must
be non-empty).  Returns the captured group. -/
def thumbGroupAt (suffix : List Char) : Option (List Char) :=
  match (splitChar '/' suffix).reverse with
  | _ :: b :: rest =>
    if !b.isEmpty && !(List.intercalate ['/'] rest.reverse).isEmpty then some b
    else none
  | _ => none

/-- Scan for the leftmost occurrence of `/thumb/` at which the rest of the
pattern matches, as `re.search` does. -/
def thumbScan : List Char → Option (List Char)
  | [] => none
  | c :: cs =>
    if ("/thumb/".toList).isPrefixOf (c :: cs) then
      match thumbGroupAt ((c :: cs).drop 7) with
      | some b => some b
      | none => thumbScan cs
    else thumbScan cs

/-- Model of `wikimedia_to_wikipedia_url`: pass non-Wikimedia URLs (and the empty
string) through unchanged; otherwise extract the filename from the thumb
pattern or the last path segment, strip one leading `NNNpx-` prefix, and
keep the original URL whenever the extracted name lacks a recognised image
extension. -/
def wikimediaToWikipediaUrl (url : String) : String :=
  if (url == "") || !(isSubstrS "upload.wikimedia.org" url) then url
  else
    let filename0 :=
      match thumbScan url.toList with
      | some b => b
      | none => (splitChar '/' url.toList).getLastD []
    let filename := stripPx filename0
    if !(hasImageExt (String.mk filename)) then url
    else "https://en.wikipedia.org/wiki/Special:Redirect/file/" ++ String.mk filename

/-! ### Keywords and strategies of `search_wikipedia_images` (lines 116-151) -/

def searchStopwords : List String :=
  ["a", "an", "the", "and", "or", "but", "in", "on", "at", "to", "for", "with", "by",
   "about", "of"]

/-- The keyword loop (lines 119-123): lowercase whitespace tokens, drop
stopwords and tokens of length at most 2. -/
def rawSearchKeywords (topic : String) : List String :=
  (pySplitWs (pyLower topic)).filter
    (fun w => !(searchStopwords.contains w) && decide (2 < w.length))

/-- Lines 126-127: fall back to the first whitespace token of the
original topic, or the topic itself when it has no tokens. -/
def searchKeywords (topic : String) : List String :=
  let kws := rawSearchKeywords topic
  if kws.isEmpty then
    match pySplitWs topic with
    | t :: _ => [t]
    | [] => [topic]
  else kws

def modifiers : List String :=
  ["diagram", "illustration", "example", "chart", "photo", "symbol", "logo"]

/-- Model of `primary_keywords` (line 138): the first two keywords joined when
there are at least two, otherwise `keywords[0]`; `none` models the
IndexError raised on an empty list. -/
def primaryKeywords : List String → Option String
  | [] => none
  | [k] => some k
  | k1 :: k2 :: _ => some (k1 ++ " " ++ k2)

/-- The ordered strategy list (lines 131-148): the verbatim topic, the
primary keywords, the primary keywords with the first three qualifiers,
and — when more than one keyword exists — the single broadest keyword.
`none` models the IndexError on an empty keyword list (provably
unreachable, see `c10_searcher_total`). -/
def searchStrategies? (topic : String) : Option (List String) :=
  let kws := searchKeywords topic
  match primaryKeywords kws with
  | none => none
  | some primary =>
    let base := [topic, primary] ++ (modifiers.take 3).map (fun m => primary ++ " " ++ m)
    let extra := match kws with
      | k :: _ :: _ => [k]
      | _ => []
    some (base ++ extra)

/-! ### The searcher body (lines 150-262) -/

def skipMarkers : List String :=
  ["icon", "logo", "commons", "wiki", "category", "placeholder"]

/-- Model of `re.search(r"icon|button|bullet|arrow|pixel|^dot-", s)` on the
lowercased name, as a test. -/
def decorMarker (lower : String) : Bool :=
  isSubstrS "icon" lower || isSubstrS "button" lower || isSubstrS "bullet" lower ||
    isSubstrS "arrow" lower || isSubstrS "pixel" lower || startsWithS lower "dot-"

/-- Lines 205-222: keep a file entry only when its title has the `File:`
prefix, carries no decorative/navigation marker, and has a recognised
image extension; yields the name without the prefix. -/
def keepFilename? (fn : String) : Option String :=
  if !(startsWithS fn "File:") then none
  else
    let name := String.mk (fn.toList.drop 5)
    if skipMarkers.any (fun mk => isSubstrS mk (pyLower name)) then none
    else if decorMarker (pyLower name) then none
    else if hasImageExt name then some name
    else none

/-- Line 224: the `Special:Redirect` URL for a surviving filename. -/
def fileUrl (name : String) : String :=
  "https://en.wikipedia.org/wiki/Special:Redirect/file/" ++ pyQuote name

/-- Lines 229-238: relevance score of a filename against the topic
keywords: +2 per exact token match, +1 per substring match. -/
def scoreFilename (keywords : List String) (name : String) : Nat :=
  let ws := findallWords (stripExt (pyLower name))
  keywords.foldl
    (fun acc kw =>
      if ws.contains (pyLower kw) then acc + 2
      else if ws.any (fun w => isSubstrS (pyLower kw) w) then acc + 1
      else acc) 0

/-- Lines 203-240: filter, verify (threading the memo) and score the file
titles of one attempt. -/
def processAttemptFiles (env : Env) (m : UrlMemo) (keywords : List String) :
    List String → List (String × Nat) × UrlMemo
  | [] => ([], m)
  | fn :: rest =>
    match keepFilename? fn with
    | none => processAttemptFiles env m keywords rest
    | some name =>
      let url := fileUrl name
      let v := verifyUrlExists env m url
      let tail := processAttemptFiles env v.2.1 keywords rest
      if v.1 then ((url, scoreFilename keywords name) :: tail.1, tail.2)
      else (tail.1, tail.2)

/-- Stable descending insertion by score (Python `list.sort` with
`reverse=True` is stable: ties keep discovery order). -/
def insertDesc (x : String × Nat) : List (String × Nat) → List (String × Nat)
  | [] => [x]
  | y :: ys => if y.2 ≤ x.2 then x :: y :: ys else y :: insertDesc x ys

def sortDesc : List (String × Nat) → List (String × Nat)
  | [] => []
  | x :: xs => insertDesc x (sortDesc xs)

/-- Lines 248-250: append URLs to the accumulator, skipping exact
duplicates already present. -/
def addResults (acc : List String) : List (String × Nat) → List String
  | [] => acc
  | p :: rest => addResults (if acc.contains p.1 then acc else acc ++ [p.1]) rest

/-- Lines 243-248: the ranked top 3 of one attempt. -/
def attemptTop (env : Env) (m : UrlMemo) (keywords : List String) (files : List String) :
    List (String × Nat) × UrlMemo :=
  let scored := processAttemptFiles env m keywords files
  ((sortDesc scored.1).take 3, scored.2)

/-- The strategy loop (lines 151-262): a failed attempt
(`apiFiles = none`) is swallowed and the loop continues with the next
strategy; after an attempt the accumulated list is returned as soon as it
is non-empty; exhausting all strategies reaches the literal `return []`
of line 262. -/
def searchLoop (env : Env) (m : UrlMemo) (keywords : List String) (acc : List String) :
    List String → List String × UrlMemo
  | [] => ([], m)
  | term :: rest =>
    match env.apiFiles term with
    | none => searchLoop env m keywords acc rest
    | some files =>
      let t := attemptTop env m keywords files
      let acc1 := addResults acc t.1
      if acc1.isEmpty then searchLoop env t.2 keywords acc1 rest
      else (acc1, t.2)

/-- One run of the strategy loop in which every attempt is exhausted
with zero results: each strategy either fails at the network/parsing
stage (`apiFiles = none`) or succeeds but keeps no candidate (all file
titles filtered out, or every surviving URL failing existence
verification), with the verification memo threaded exactly as the loop
threads it. -/
def attemptsEmpty (env : Env) (keywords : List String) : UrlMemo → List String → Bool
  | _, [] => true
  | m, term :: rest =>
    match env.apiFiles term with
    | none => attemptsEmpty env keywords m rest
    | some files =>
      (attemptTop env m keywords files).1.isEmpty &&
        attemptsEmpty env keywords (attemptTop env m keywords files).2 rest

/-- Model of `search_wikipedia_images(topic, retry_count)`.  The `none` branch of
the strategy list is unreachable (see `c10_searcher_total`). -/
def searchWikipediaImagesCore (env : Env) (m : UrlMemo) (topic : String)
    (retryCount : Nat) : List String × UrlMemo :=
  match searchStrategies? topic with
  | some strats => searchLoop env m (searchKeywords topic) [] (strats.take retryCount)
  | none => ([], m)

/-! ### `extract_keywords` (lines 653-668) -/

def longStopwords : List String :=
  ["a", "an", "the", "and", "or", "but", "in", "on", "at", "to",
   "for", "with", "by", "about", "of", "this", "that", "these",
   "those", "is", "are", "was", "were", "be", "been", "being",
   "have", "has", "had", "do", "does", "did", "can", "could",
   "will", "would", "shall", "should", "may", "might", "must"]

def extractKeywords (text : String) : List String :=
  if text == "" then []
  else (findallWords (pyLower text)).filter
    (fun w => !(longStopwords.contains w) && decide (2 < w.length))

/-! ### `verify_image_caption_match` (lines 559-651) with `lru_cache(64)` -/

abbrev MatchKey := String × String × String × String

abbrev MatchMemo := List (MatchKey × (Bool × String))

def matchLookup (mm : MatchMemo) (k : MatchKey) : Option (Bool × String) :=
  (mm.find? (fun p => decide (p.1 = k))).map (fun p => p.2)

/-- Model of `str.find(c)` as an index option (Python returns -1 when absent). -/
def firstIdxOf (c : Char) : List Char → Option Nat
  | [] => none
  | x :: xs => if x = c then some 0 else (firstIdxOf c xs).map (fun i => i + 1)

/-- The 150-character caption truncation (lines 638-640). -/
def truncateCaption (s : String) : String :=
  if 150 < s.length then String.mk (s.toList.take 147) ++ "..." else s

/-- The body of `verify_image_caption_match` without its cache.  An empty
caption or URL is rejected outright.  Cheap path: any caption or title
keyword occurring exactly in the keyword set of the cleaned filename is a
match with the caption unchanged.  Otherwise the vision judge is
consulted: `none` (a raised error) and an empty response (whose
`split()[0]` would raise) degrade to the cheap-path verdict; otherwise
the verdict is read from the first token (`"MATCH" in token`, the
source's own reading) and a trailing `: ...` text, stripped and truncated,
replaces the caption on a match. -/
def matchBody (env : Env) (imageUrl caption title content : String) : Bool × String :=
  if caption == "" || imageUrl == "" then (false, "")
  else
    let captionKeywords := extractKeywords caption
    let titleKeywords := extractKeywords title
    let fn0 := String.mk ((splitChar '/' imageUrl.toList).getLastD [])
    let fn1 :=
      if isSubstrS "File:" fn0 then
        String.mk ((afterLastL ("File:".toList) fn0.toList).getD fn0.toList)
      else fn0
    let fn2 := replaceChar '-' ' ' (replaceChar '_' ' ' (stripExt fn1))
    let filenameWords := extractKeywords fn2
    let captionMatch := captionKeywords.any (fun k => filenameWords.contains k)
    let titleMatch := titleKeywords.any (fun k => filenameWords.contains k)
    if captionMatch || titleMatch then (true, caption)
    else
      match env.judge imageUrl caption title content with
      | none => (captionMatch || titleMatch, caption)
      | some txt =>
        match pySplitWs (pyUpper txt) with
        | [] => (captionMatch || titleMatch, caption)
        | tok :: _ =>
          let isMatch := isSubstrS "MATCH" tok
          let newCaption :=
            if isMatch && decide (10 < txt.length) then
              match firstIdxOf ':' txt.toList with
              | some i =>
                if 0 < i then truncateCaption (pyStrip (String.mk (txt.toList.drop (i + 1))))
                else caption
              | none => caption
            else caption
          (isMatch, newCaption)

/-- Model of `verify_image_caption_match` with its `lru_cache(maxsize=64)`
explicit: entries are most-recently-used first, keyed on the full
argument tuple; a hit bumps the entry and skips the body entirely; a miss
runs the body, inserts at the front and evicts beyond 64.  Returns
`(result, memo, body ran)`. -/
def verifyImageCaptionMatch (env : Env) (mm : MatchMemo)
    (imageUrl caption title content : String) : (Bool × String) × MatchMemo × Bool :=
  match matchLookup mm (imageUrl, caption, title, content) with
  | some v =>
    (v, ((imageUrl, caption, title, content), v) ::
      mm.filter (fun p => !(decide (p.1 = ((imageUrl, caption, title, content) : MatchKey)))), false)
  | none =>
    (matchBody env imageUrl caption title content,
     (((imageUrl, caption, title, content), matchBody env imageUrl caption title content) ::
       mm.filter (fun p => !(decide (p.1 = ((imageUrl, caption, title, content) : MatchKey))))).take 64,
     true)

/-! ### Memo consistency: the caches only ever hold the pure verdicts -/

/-- A match memo whose entries all record the pure body verdict for their
key — an invariant of every memo arising in a run. -/
def MatchMemoOk (env : Env) (mm : MatchMemo) : Prop :=
  ∀ p ∈ mm, p.2 = matchBody env p.1.1 p.1.2.1 p.1.2.2.1 p.1.2.2.2

/-! ### Selection among alternatives (lines 401-422 and 444-463) -/

/-- The `found_match` loop: try each candidate in ranked order through
the Match Verifier, stopping at the first verified match (returning its
URL and validated caption) and threading the memo. -/
def firstMatchLoop (env : Env) (mm : MatchMemo) (caption title content : String) :
    List String → Option (String × String) × MatchMemo
  | [] => (none, mm)
  | u :: rest =>
    if (verifyImageCaptionMatch env mm u caption title content).1.1 then
      (some (u, (verifyImageCaptionMatch env mm u caption title content).1.2),
       (verifyImageCaptionMatch env mm u caption title content).2.1)
    else
      firstMatchLoop env (verifyImageCaptionMatch env mm u caption title content).2.1
        caption title content rest

/-- The whole selection block: first verified match, else fall back to
the highest-ranked candidate (`search_images[0]`) with the caption left
unchanged; `none` only when there are no candidates at all. -/
def selectFromResults (env : Env) (mm : MatchMemo) (caption title content : String)
    (results : List String) : (Option String × String) × MatchMemo :=
  match firstMatchLoop env mm caption title content results with
  | (some uv, mm1) => ((some uv.1, uv.2), mm1)
  | (none, mm1) =>
    match results with
    | r :: _ => ((some r, caption), mm1)
    | [] => ((none, caption), mm1)

/-! ### The Card Enrichment Orchestrator (`query_gpt`, lines 313-468) -/

/-- A candidate card as delivered by the generation collaborator (the
JSON schema makes all four fields required strings). -/
structure Card where
  title : String
  content : String
  image : String
  caption : String
deriving DecidableEq

/-- A finalized card as yielded by `query_gpt` (line 468): the image is a
string or Python `None`. -/
structure FinalCard where
  title : String
  content : String
  image : Option String
  caption : String
deriving DecidableEq

/-- The per-request `title_to_images_map` (line 321). -/
abbrev TitleCache := List (String × List String)

def cacheLookup (cache : TitleCache) (title : String) : Option (List String) :=
  (cache.find? (fun p => decide (p.1 = title))).map (fun p => p.2)

/-- Line 384's test `title in title_to_images_map and
title_to_images_map[title]`: only a present and non-empty entry counts. -/
def cacheHitNonempty (cache : TitleCache) (title : String) : Option (List String) :=
  match cacheLookup cache title with
  | some l => if l.isEmpty then none else some l
  | none => none

/-- Model of `random.choice(l)`: an environment-chosen index, reduced modulo the
length (callers guarantee `l` non-empty). -/
def pyChoice (env : Env) (l : List String) : String :=
  l.getD (env.pick l % l.length) ""

abbrev BranchRet := (Option String × String) × UrlMemo × MatchMemo × TitleCache × Nat

/-- Lines 390-395: search by card title, and only if that yields nothing
search by the overall topic; the final component counts the network
searches issued. -/
def searchTitleTopic (env : Env) (uM : UrlMemo) (mainTopic title : String) :
    (List String × UrlMemo) × Nat :=
  let s1 := searchWikipediaImagesCore env uM title 6
  if s1.1.isEmpty then (searchWikipediaImagesCore env s1.2 mainTopic 6, 2)
  else (s1, 1)

/-- Lines 389-425: the cache-miss path of the invalid-image branch:
search (title, then topic), store the result under the title even when
empty, then select among the results; an empty result leaves the card
imageless. -/
def invalidSearch (env : Env) (uM : UrlMemo) (mm : MatchMemo) (cache : TitleCache)
    (mainTopic title content caption : String) : BranchRet :=
  let st := searchTitleTopic env uM mainTopic title
  let si := st.1.1
  let cache1 := (title, si) :: cache
  if si.isEmpty then ((none, caption), st.1.2, mm, cache1, st.2)
  else
    let sel := selectFromResults env mm caption title content si
    (sel.1, st.1.2, sel.2, cache1, st.2)

/-- Lines 383-425 before the caption clearing: a non-empty cache entry
short-circuits to `random.choice` with no search at all. -/
def invalidCore (env : Env) (uM : UrlMemo) (mm : MatchMemo) (cache : TitleCache)
    (mainTopic title content caption : String) : BranchRet :=
  match cacheHitNonempty cache title with
  | some l => ((some (pyChoice env l), caption), uM, mm, cache, 0)
  | none => invalidSearch env uM mm cache mainTopic title content caption

/-- The whole invalid-image branch (lines 377-429): lines 427-429 clear
the caption whenever no image was produced. -/
def invalidBranch (env : Env) (uM : UrlMemo) (mm : MatchMemo) (cache : TitleCache)
    (mainTopic title content caption : String) : BranchRet :=
  let step := invalidCore env uM mm cache mainTopic title content caption
  ((step.1.1, if step.1.1 = none then "" else step.1.2), step.2)

/-- The valid-image branch (lines 430-466): verify the accepted image
against its caption; on a match keep it with the validated caption; on a
mismatch search by the card title only (no cache, no topic fallback) and
select among the results, keeping the original image — and caption —
when the search comes back empty. -/
def validBranch (env : Env) (uM : UrlMemo) (mm : MatchMemo)
    (title content image caption : String) : (String × String) × UrlMemo × MatchMemo × Nat :=
  let v := verifyImageCaptionMatch env mm image caption title content
  if v.1.1 then ((image, v.1.2), uM, v.2.1, 0)
  else
    let s := searchWikipediaImagesCore env uM title 6
    if s.1.isEmpty then ((image, caption), s.2, v.2.1, 1)
    else
      let sel := selectFromResults env v.2.1 caption title content s.1
      ((sel.1.1.getD image, sel.1.2), s.2, sel.2, 1)

/-- Lines 377-379: accept the proposed image only when it starts with
`http`, ends with a recognised image extension and passes existence
verification; the `or` short-circuit means no HEAD request is made when
either cheap test already fails. -/
def checkImage (env : Env) (uM : UrlMemo) (image1 : String) : Bool × UrlMemo :=
  if startsWithS image1 "http" && hasImageExt image1 then
    let v := verifyUrlExists env uM image1
    (v.1, v.2.1)
  else (false, uM)

/-- One iteration of the card loop (lines 367-468): strip and normalize
the proposed image, validate it, then run the valid- or invalid-image
branch; yields the finalized card, the threaded state and the number of
network searches issued for this card. -/
def processCard (env : Env) (uM : UrlMemo) (mm : MatchMemo) (cache : TitleCache)
    (mainTopic : String) (c : Card) : FinalCard × UrlMemo × MatchMemo × TitleCache × Nat :=
  let image1 := wikimediaToWikipediaUrl (pyStrip c.image)
  let chk := checkImage env uM image1
  if chk.1 then
    let r := validBranch env chk.2 mm c.title c.content image1 c.caption
    (⟨c.title, c.content, some r.1.1, r.1.2⟩, r.2.1, r.2.2.1, cache, r.2.2.2)
  else
    let r := invalidBranch env chk.2 mm cache mainTopic c.title c.content c.caption
    (⟨c.title, c.content, r.1.1, r.1.2⟩, r.2)

def processCards (env : Env) (uM : UrlMemo) (mm : MatchMemo) (cache : TitleCache)
    (mainTopic : String) : List Card → List (FinalCard × Nat) × UrlMemo × MatchMemo × TitleCache
  | [] => ([], uM, mm, cache)
  | c :: rest =>
    let r := processCard env uM mm cache mainTopic c
    let rs := processCards env r.2.1 r.2.2.1 r.2.2.2.1 mainTopic rest
    ((r.1, r.2.2.2.2) :: rs.1, rs.2)

/-- Model of `query_gpt` (lines 313-321 plus the card loop): truncate the prompt
to 100 characters, prefix the fixed phrase, recover the main topic by
deleting the phrase again, and start from an empty per-request title
cache; the candidate cards stand in for the generation collaborator's
output.  The URL and match memos are threaded in and out (process-wide
state), unlike the title cache. -/
def queryGpt (env : Env) (uM : UrlMemo) (mm : MatchMemo) (prompt : String)
    (cards : List Card) : List (FinalCard × Nat) × UrlMemo × MatchMemo :=
  let p := if 100 < prompt.length then String.mk (prompt.toList.take 100) else prompt
  let mainTopic := removeAllS "I want to learn about " ("I want to learn about " ++ p)
  let r := processCards env uM mm [] mainTopic cards
  (r.1, r.2.1, r.2.2.1)

/-! ### C5: the per-request title cache -/

/-- An environment on which every collaborator call fails. -/
def envNone : Env := ⟨fun _ => none, fun _ => none, fun _ _ _ _ => none, fun _ => 0⟩

/-- An environment whose search attempts succeed with one file title but
whose HEAD probe always answers 404, so every candidate fails existence
verification and every attempt yields zero kept results. -/
def envDead : Env :=
  ⟨fun _ => some 404, fun _ => some ["File:Cat.jpg"], fun _ _ _ _ => none, fun _ => 0⟩

/-- A card whose proposed image is the invalid `"not-a-url"`. -/
def cardT : Card := ⟨"t", "c", "not-a-url", "cap"⟩

/-! ### Soundness invariants for C1 and C2 -/

/-- A URL memo whose entries all record the pure verdict for their URL —
an invariant of every memo arising in a run. -/
def UrlMemoOk (env : Env) (m : UrlMemo) : Prop :=
  ∀ p ∈ m, p.2 = verifyBody env p.1

/-- Every URL of the list passed existence verification. -/
def AllVerified (env : Env) (l : List String) : Prop :=
  ∀ u ∈ l, verifyBody env u = true

/-- Every cached result list consists of verified URLs. -/
def CacheOk (env : Env) (cache : TitleCache) : Prop :=
  ∀ p ∈ cache, AllVerified env p.2

/-- An environment on which the HEAD probe always answers 200 and the
vision judge always answers `MATCH`. -/
def envOk : Env :=
  ⟨fun _ => some 200, fun _ => none, fun _ _ _ _ => some "MATCH", fun _ => 0⟩

/-- A card with a well-formed, reachable image URL. -/
def cardV : Card := ⟨"T", "C", "https://a/x.png", "cap!"⟩

/-! ### Theorems -/

/-! ### Lemmas about the verifier -/

theorem memoLookup_cons_self (m : UrlMemo) (url : String) (b : Bool) :
    memoLookup ((url, b) :: m) url = some b := by
  simp [memoLookup, List.find?]

theorem verifyUrlExists_head (env : Env) (m : UrlMemo) (url : String) :
    ∃ t, (verifyUrlExists env m url).2.1 = (url, (verifyUrlExists env m url).1) :: t := by
  unfold verifyUrlExists
  cases h : memoLookup m url with
  | some b => exact ⟨_, rfl⟩
  | none => exact ⟨_, rfl⟩

/-- C6: the Existence Verifier fails closed and is memoized.  On a cache
miss: a URL without a scheme yields `false` without any network request;
a HEAD status of 400 or above yields `false`; a raised transport
error/timeout (`headStatus = none`) yields `false`; any status strictly
below 400 yields `true`.  And a second call with the same URL against the
memo produced by the first call returns the first call's boolean without
issuing a new network request. -/
theorem c6_existence_verifier (env : Env) (m : UrlMemo) (url : String) :
    (memoLookup m url = none →
      (urlHasScheme url = false →
        (verifyUrlExists env m url).1 = false ∧ (verifyUrlExists env m url).2.2 = false) ∧
      (∀ s, urlHasScheme url = true → env.headStatus url = some s → 400 ≤ s →
        (verifyUrlExists env m url).1 = false) ∧
      (urlHasScheme url = true → env.headStatus url = none →
        (verifyUrlExists env m url).1 = false) ∧
      (∀ s, urlHasScheme url = true → env.headStatus url = some s → s < 400 →
        (verifyUrlExists env m url).1 = true)) ∧
    ((verifyUrlExists env (verifyUrlExists env m url).2.1 url).1
        = (verifyUrlExists env m url).1 ∧
     (verifyUrlExists env (verifyUrlExists env m url).2.1 url).2.2 = false) := by
  constructor
  · intro hmiss
    refine ⟨?_, ?_, ?_, ?_⟩
    · intro hsch
      simp [verifyUrlExists, hmiss, verifyBody, hsch]
    · intro s hsch hhead hge
      simp [verifyUrlExists, hmiss, verifyBody, hsch, hhead]
      omega
    · intro hsch hhead
      simp [verifyUrlExists, hmiss, verifyBody, hsch, hhead]
    · intro s hsch hhead hlt
      simp [verifyUrlExists, hmiss, verifyBody, hsch, hhead]
      omega
  · obtain ⟨t, ht⟩ := verifyUrlExists_head env m url
    have hl : memoLookup (verifyUrlExists env m url).2.1 url
        = some (verifyUrlExists env m url).1 := by
      rw [ht]; exact memoLookup_cons_self _ _ _
    constructor
    · conv_lhs => rw [verifyUrlExists, hl]
    · conv_lhs => rw [verifyUrlExists, hl]

/-- Witness for C6 at a concrete environment and URL. -/
theorem c6_witness :
    (verifyUrlExists ⟨fun _ => some 404, fun _ => none, fun _ _ _ _ => none, fun _ => 0⟩
        [] "https://example.org/a.png").1 = false := by
  have h := (c6_existence_verifier
      ⟨fun _ => some 404, fun _ => none, fun _ _ _ _ => none, fun _ => 0⟩
      [] "https://example.org/a.png").1 (by decide)
  exact h.2.1 404 (by decide) rfl (by decide)

/-- C8 counterexample: the normalizer is not idempotent.  A Wikimedia URL
whose last segment carries a doubled `NNNpx-` prefix and itself embeds the
upload domain is rewritten to an output that still contains
`upload.wikimedia.org`, and a second application strips a further
`NNNpx-` prefix, changing the result. -/
theorem c8_counterexample :
    wikimediaToWikipediaUrl (wikimediaToWikipediaUrl
        "https://upload.wikimedia.org/100px-200px-upload.wikimedia.org.png")
      ≠ wikimediaToWikipediaUrl
        "https://upload.wikimedia.org/100px-200px-upload.wikimedia.org.png" := by
  decide

/-- C8 (amended): the normalizer is idempotent on every URL whose image
does not contain the upload domain — the second application then passes
the first output through unchanged.  (Outputs that do embed the upload
domain, as in the counterexample, can be rewritten again.) -/
theorem c8_amended_idempotent (u : String)
    (h : isSubstrS "upload.wikimedia.org" (wikimediaToWikipediaUrl u) = false) :
    wikimediaToWikipediaUrl (wikimediaToWikipediaUrl u) = wikimediaToWikipediaUrl u := by
  rw [wikimediaToWikipediaUrl, h]
  simp

/-- Witness for the amended C8 at a thumb-style Wikimedia URL. -/
theorem c8_witness :
    wikimediaToWikipediaUrl (wikimediaToWikipediaUrl
        "https://upload.wikimedia.org/wikipedia/commons/thumb/3/3f/Example.svg/600px-Example.svg.png")
      = wikimediaToWikipediaUrl
        "https://upload.wikimedia.org/wikipedia/commons/thumb/3/3f/Example.svg/600px-Example.svg.png" :=
  c8_amended_idempotent _ (by decide)

theorem searchKeywords_ne_nil (topic : String) : searchKeywords topic ≠ [] := by
  unfold searchKeywords
  cases h : rawSearchKeywords topic with
  | nil =>
    simp only [h, List.isEmpty_nil, if_true]
    cases pySplitWs topic <;> simp
  | cons a t => simp [h]

/-- C4 counterexample: for the topic `"neural networks"` with retry
budget 6 the strategy list is `["neural networks", "neural networks",
"neural networks diagram", "neural networks illustration",
"neural networks example", "neural"]` — six queries, first verbatim, last
a single broad keyword, but the primary-keyword query duplicates the
verbatim topic, so the sequence is not duplicate-free as claimed. -/
theorem c4_counterexample :
    ¬ ((((searchStrategies? "neural networks").getD []).take 6).length = 6 ∧
       (((searchStrategies? "neural networks").getD []).take 6).head? = some "neural networks" ∧
       (((searchStrategies? "neural networks").getD []).take 6).getLast? = some "neural" ∧
       (((searchStrategies? "neural networks").getD []).take 6).Nodup) := by
  decide

/-- C4 (amended): for `"neural networks"` with retry budget 6 the
generator produces exactly 6 ordered query strings, the first the
verbatim topic and the last the single broad keyword `"neural"`; the only
repetition is that the second query (the primary-keyword join) coincides
with the first — removing it leaves the remaining five pairwise
distinct. -/
theorem c4_amended :
    (((searchStrategies? "neural networks").getD []).take 6).length = 6 ∧
    (((searchStrategies? "neural networks").getD []).take 6).head? = some "neural networks" ∧
    (((searchStrategies? "neural networks").getD []).take 6).getLast? = some "neural" ∧
    (((searchStrategies? "neural networks").getD []).take 6).get? 0
      = (((searchStrategies? "neural networks").getD []).take 6).get? 1 ∧
    ((((searchStrategies? "neural networks").getD []).take 6).eraseIdx 1).Nodup := by
  decide

/-- C10: for every topic string — including the empty string and topics
made only of stopwords or short tokens — the keyword list is non-empty
(falling back to the topic's first whitespace token, or the topic itself
when it has no tokens), the strategy list is defined (no IndexError) and
non-empty with the verbatim topic first, so the searcher front end is
total. -/
theorem c10_searcher_total (topic : String) :
    searchKeywords topic ≠ [] ∧
    (searchStrategies? topic).isSome = true ∧
    (∀ l, searchStrategies? topic = some l → l ≠ [] ∧ l.head? = some topic) ∧
    (rawSearchKeywords topic = [] →
      searchKeywords topic =
        match pySplitWs topic with
        | t :: _ => [t]
        | [] => [topic]) := by
  have hkw := searchKeywords_ne_nil topic
  refine ⟨hkw, ?_, ?_, ?_⟩
  · cases hk : searchKeywords topic with
    | nil => exact absurd hk hkw
    | cons k t =>
      cases t with
      | nil => simp [searchStrategies?, hk, primaryKeywords]
      | cons k2 t2 => simp [searchStrategies?, hk, primaryKeywords]
  · intro l hl
    cases hk : searchKeywords topic with
    | nil => exact absurd hk hkw
    | cons k t =>
      cases t with
      | nil =>
        rw [searchStrategies?] at hl
        simp only [hk, primaryKeywords] at hl
        cases hl
        simp
      | cons k2 t2 =>
        rw [searchStrategies?] at hl
        simp only [hk, primaryKeywords] at hl
        cases hl
        simp
  · intro hraw
    unfold searchKeywords
    simp [hraw]

/-- Witness for C10 at the empty topic: the keyword list degenerates to
`[""]` and the strategy list is still produced. -/
theorem c10_witness :
    searchKeywords "" ≠ [] ∧ (searchStrategies? "").isSome = true :=
  ⟨(c10_searcher_total "").1, (c10_searcher_total "").2.1⟩

/-- C7: the Media Searcher short-circuits and fails soft.  (i) An attempt
whose network/parsing stage fails (`apiFiles = none`) is swallowed and
the loop proceeds to the remaining strategies.  (ii) As soon as an
attempt leaves the accumulated (verified) result list non-empty, that
list is returned at once and the remaining strategies are never tried.
(iii) When every attempt fails at the network stage, the loop returns
the empty list with the memo untouched.  (iv) More generally, whenever
every attempt is exhausted with zero results — failing at the network
stage, or succeeding but keeping no candidate because every file title
was filtered out or every surviving URL failed existence verification —
the loop (started, as the code starts it, with an empty accumulator)
returns the empty list rather than raising. -/
theorem c7_search_short_circuit (env : Env) (m : UrlMemo) (keywords acc : List String)
    (term : String) (rest strats : List String) :
    (env.apiFiles term = none →
      searchLoop env m keywords acc (term :: rest) = searchLoop env m keywords acc rest) ∧
    (∀ files, env.apiFiles term = some files →
      addResults acc (attemptTop env m keywords files).1 ≠ [] →
      searchLoop env m keywords acc (term :: rest)
        = (addResults acc (attemptTop env m keywords files).1,
           (attemptTop env m keywords files).2)) ∧
    ((∀ t ∈ strats, env.apiFiles t = none) →
      searchLoop env m keywords acc strats = ([], m)) ∧
    (attemptsEmpty env keywords m strats = true →
      (searchLoop env m keywords [] strats).1 = []) := by
  refine ⟨?_, ?_, ?_, ?_⟩
  · intro h
    rw [searchLoop, h]
  · intro files h hne
    rw [searchLoop, h]
    simp only []
    have : (addResults acc (attemptTop env m keywords files).1).isEmpty = false := by
      cases hx : addResults acc (attemptTop env m keywords files).1 with
      | nil => exact absurd hx hne
      | cons a l => rfl
    rw [this]
    simp
  · intro h
    induction strats with
    | nil => rw [searchLoop]
    | cons t ts ih =>
      rw [searchLoop, h t (List.mem_cons_self t ts)]
      exact ih (fun x hx => h x (List.mem_cons_of_mem t hx))
  · have hgen : ∀ (ss : List String) (m0 : UrlMemo),
        attemptsEmpty env keywords m0 ss = true →
        (searchLoop env m0 keywords [] ss).1 = [] := by
      intro ss
      induction ss with
      | nil => intro m0 _; rfl
      | cons t ts ih =>
        intro m0 hall
        cases ha : env.apiFiles t with
        | none =>
          simp only [attemptsEmpty, ha] at hall
          simp only [searchLoop, ha]
          exact ih m0 hall
        | some files =>
          simp only [attemptsEmpty, ha, Bool.and_eq_true] at hall
          obtain ⟨h1, h2⟩ := hall
          have htop : (attemptTop env m0 keywords files).1 = [] := by
            cases hx : (attemptTop env m0 keywords files).1 with
            | nil => rfl
            | cons a l => rw [hx] at h1; exact Bool.noConfusion h1
          simp only [searchLoop, ha, htop, addResults]
          simp only [List.isEmpty_nil, if_true]
          exact ih _ h2
    exact hgen strats m

/-- Witness for C7: a concrete two-strategy search in which every
attempt succeeds at the network stage but every candidate URL fails
existence verification (HEAD answers 404) returns the empty list. -/
theorem c7_witness :
    (searchLoop envDead [] ["cat"] [] ["cat", "cat diagram"]).1 = [] :=
  (c7_search_short_circuit envDead [] ["cat"] [] "x" []
      ["cat", "cat diagram"]).2.2.2 (by decide)

theorem matchLookup_cons_self (mm : MatchMemo) (k : MatchKey) (v : Bool × String) :
    matchLookup ((k, v) :: mm) k = some v := by
  simp [matchLookup, List.find?]

theorem verifyImageCaptionMatch_head (env : Env) (mm : MatchMemo)
    (a b c d : String) :
    ∃ t, (verifyImageCaptionMatch env mm a b c d).2.1
      = ((a, b, c, d), (verifyImageCaptionMatch env mm a b c d).1) :: t := by
  unfold verifyImageCaptionMatch
  cases h : matchLookup mm (a, b, c, d) with
  | some v => exact ⟨_, rfl⟩
  | none => exact ⟨_, rfl⟩

theorem length_filter_lt_of_mem {α : Type} (p : α → Bool) (l : List α) (a : α)
    (ha : a ∈ l) (hpa : p a = false) : (l.filter p).length < l.length := by
  induction l with
  | nil => cases ha
  | cons x xs ih =>
    rcases List.mem_cons.mp ha with rfl | hmem
    · rw [List.filter_cons, hpa]
      exact Nat.lt_succ_of_le (List.length_filter_le p xs)
    · rw [List.filter_cons]
      cases hx : p x
      · simp only [Bool.false_eq_true, if_false, List.length_cons]
        exact Nat.lt_succ_of_lt (ih hmem)
      · simp only [if_true, List.length_cons]
        exact Nat.succ_lt_succ (ih hmem)

/-- C9: the Match Verifier is memoized process-wide, keyed on the full
`(image_url, caption, title, content)` tuple, in a cache of at most 64
entries.  A second call with identical arguments against the memo
produced by the first returns the identical `(is_match, caption)` pair
without running the body — no keyword computation, no judge call; any
cached key is likewise answered without the body; and the memo never
grows beyond 64 entries.  The memo is threaded through the orchestrator
across cards and requests (`queryGpt` below takes and returns it),
unlike the per-request title cache which starts empty each request. -/
theorem c9_match_memoized (env : Env) (mm : MatchMemo)
    (imageUrl caption title content : String) :
    ((verifyImageCaptionMatch env
        (verifyImageCaptionMatch env mm imageUrl caption title content).2.1
        imageUrl caption title content).1
      = (verifyImageCaptionMatch env mm imageUrl caption title content).1 ∧
     (verifyImageCaptionMatch env
        (verifyImageCaptionMatch env mm imageUrl caption title content).2.1
        imageUrl caption title content).2.2 = false) ∧
    (∀ v, matchLookup mm (imageUrl, caption, title, content) = some v →
      (verifyImageCaptionMatch env mm imageUrl caption title content).1 = v ∧
      (verifyImageCaptionMatch env mm imageUrl caption title content).2.2 = false) ∧
    (mm.length ≤ 64 →
      (verifyImageCaptionMatch env mm imageUrl caption title content).2.1.length ≤ 64) := by
  refine ⟨?_, ?_, ?_⟩
  · obtain ⟨t, ht⟩ := verifyImageCaptionMatch_head env mm imageUrl caption title content
    have hl : matchLookup (verifyImageCaptionMatch env mm imageUrl caption title content).2.1
        (imageUrl, caption, title, content)
        = some (verifyImageCaptionMatch env mm imageUrl caption title content).1 := by
      rw [ht]; exact matchLookup_cons_self _ _ _
    constructor
    · conv_lhs => rw [verifyImageCaptionMatch, hl]
    · conv_lhs => rw [verifyImageCaptionMatch, hl]
  · intro v hv
    constructor
    · rw [verifyImageCaptionMatch, hv]
    · rw [verifyImageCaptionMatch, hv]
  · intro hle
    rw [verifyImageCaptionMatch]
    cases hv : matchLookup mm (imageUrl, caption, title, content) with
    | some v =>
      simp only [List.length_cons]
      obtain ⟨p0, hfind⟩ : ∃ p0, mm.find?
          (fun p => decide (p.1 = (imageUrl, caption, title, content))) = some p0 := by
        unfold matchLookup at hv
        cases hf : mm.find? (fun p => decide (p.1 = (imageUrl, caption, title, content))) with
        | none => rw [hf] at hv; cases hv
        | some p0 => exact ⟨p0, rfl⟩
      have hmem := List.mem_of_find?_eq_some hfind
      have hp := List.find?_some hfind
      have hlt := length_filter_lt_of_mem
        (fun p => !(decide (p.1 = ((imageUrl, caption, title, content) : MatchKey)))) mm p0 hmem
        (by simp [hp])
      omega
    | none =>
      have := List.length_take_le 64
        (((imageUrl, caption, title, content), matchBody env imageUrl caption title content) ::
          mm.filter (fun p => !(decide (p.1 = (imageUrl, caption, title, content)))))
      simp only [] at this ⊢
      exact this

/-- Witness for C9: a concrete hit returns the cached verdict without
running the body. -/
theorem c9_witness :
    (verifyImageCaptionMatch ⟨fun _ => none, fun _ => none, fun _ _ _ _ => none, fun _ => 0⟩
        [(("u", "c", "t", "b"), (true, "c"))] "u" "c" "t" "b").1 = (true, "c") ∧
    (verifyImageCaptionMatch ⟨fun _ => none, fun _ => none, fun _ _ _ _ => none, fun _ => 0⟩
        [(("u", "c", "t", "b"), (true, "c"))] "u" "c" "t" "b").2.2 = false :=
  ((c9_match_memoized ⟨fun _ => none, fun _ => none, fun _ _ _ _ => none, fun _ => 0⟩
      [(("u", "c", "t", "b"), (true, "c"))] "u" "c" "t" "b").2.1 (true, "c") (by decide))

theorem matchMemoOk_nil (env : Env) : MatchMemoOk env [] :=
  fun p hp => absurd hp (List.not_mem_nil p)

theorem verifyMatch_ok (env : Env) (mm : MatchMemo) (h : MatchMemoOk env mm)
    (a b c d : String) :
    (verifyImageCaptionMatch env mm a b c d).1 = matchBody env a b c d ∧
    MatchMemoOk env (verifyImageCaptionMatch env mm a b c d).2.1 := by
  unfold verifyImageCaptionMatch
  cases hv : matchLookup mm (a, b, c, d) with
  | some v =>
    rw [matchLookup] at hv
    obtain ⟨p0, hfind, hv2⟩ := Option.map_eq_some'.mp hv
    have hmem := List.mem_of_find?_eq_some hfind
    have hkey := List.find?_some hfind
    simp only [decide_eq_true_eq] at hkey
    have hval := h p0 hmem
    have hvm : v = matchBody env a b c d := by
      rw [← hv2, hval, hkey]
    constructor
    · exact hvm
    · intro p hp
      rcases List.mem_cons.mp hp with rfl | hp2
      · exact hvm
      · exact h p (List.mem_of_mem_filter hp2)
  | none =>
    constructor
    · rfl
    · intro p hp
      have hp2 := List.mem_of_mem_take hp
      rcases List.mem_cons.mp hp2 with rfl | hp3
      · rfl
      · exact h p (List.mem_of_mem_filter hp3)

theorem firstMatchLoop_spec (env : Env) (caption title content : String) :
    ∀ (results : List String) (mm : MatchMemo), MatchMemoOk env mm →
      (firstMatchLoop env mm caption title content results).1 =
        (results.find? (fun u => (matchBody env u caption title content).1)).map
          (fun u => (u, (matchBody env u caption title content).2)) ∧
      MatchMemoOk env (firstMatchLoop env mm caption title content results).2 := by
  intro results
  induction results with
  | nil => exact fun mm h => ⟨rfl, h⟩
  | cons u rest ih =>
    intro mm h
    obtain ⟨hres, hok⟩ := verifyMatch_ok env mm h u caption title content
    have h11 : (verifyImageCaptionMatch env mm u caption title content).1.1
        = (matchBody env u caption title content).1 := by rw [hres]
    have h12 : (verifyImageCaptionMatch env mm u caption title content).1.2
        = (matchBody env u caption title content).2 := by rw [hres]
    cases hb : (matchBody env u caption title content).1 with
    | true =>
      rw [firstMatchLoop]
      simp only [h11, hb, if_true]
      refine ⟨?_, hok⟩
      have hfc : (u :: rest).find? (fun x => (matchBody env x caption title content).1)
          = some u := List.find?_cons_of_pos rest hb
      rw [hfc, Option.map_some', h12]
    | false =>
      rw [firstMatchLoop]
      simp only [h11, hb, Bool.false_eq_true, if_false]
      have hfc : (u :: rest).find? (fun x => (matchBody env x caption title content).1)
          = rest.find? (fun x => (matchBody env x caption title content).1) :=
        List.find?_cons_of_neg rest (by simp [hb])
      rw [hfc]
      exact ih (verifyImageCaptionMatch env mm u caption title content).2.1 hok

/-- C3: selection among alternative search results.  Starting from any
consistent memo, the orchestrator's selection block returns exactly the
first candidate (in ranked order) whose Match Verifier verdict is
positive, together with that verdict's validated caption; when no
candidate matches it falls back to the single highest-ranked candidate
with the caption unchanged, and only an empty candidate list yields no
image. -/
theorem c3_selection (env : Env) (mm : MatchMemo) (caption title content : String)
    (results : List String) (h : MatchMemoOk env mm) :
    (selectFromResults env mm caption title content results).1 =
      (match results.find? (fun u => (matchBody env u caption title content).1) with
       | some u => (some u, (matchBody env u caption title content).2)
       | none => (results.head?, caption)) := by
  obtain ⟨hspec, _⟩ := firstMatchLoop_spec env caption title content results mm h
  cases hFL : firstMatchLoop env mm caption title content results with
  | mk o mm1 =>
    rw [hFL] at hspec
    cases hf : results.find? (fun u => (matchBody env u caption title content).1) with
    | some u =>
      rw [hf, Option.map_some'] at hspec
      simp only at hspec
      rw [selectFromResults, hFL, hspec]
    | none =>
      rw [hf, Option.map_none'] at hspec
      simp only at hspec
      rw [selectFromResults, hFL, hspec]
      cases results with
      | nil => rfl
      | cons r t => rfl

/-- Witness for C3: one unverifiable candidate, no match anywhere — the
fallback picks the highest-ranked candidate with the caption kept. -/
theorem c3_witness :
    (selectFromResults ⟨fun _ => none, fun _ => none, fun _ _ _ _ => none, fun _ => 0⟩
        [] "c" "t" "b" ["a"]).1 = (some "a", "c") := by
  rw [c3_selection ⟨fun _ => none, fun _ => none, fun _ _ _ _ => none, fun _ => 0⟩
    [] "c" "t" "b" ["a"]
    (fun p hp => absurd hp (List.not_mem_nil p))]
  decide

/-- C5 counterexample: two identical cards with the same title in one
request, every search attempt failing.  The first card's (empty) search
result *is* stored in the cache, but line 384 only counts a *non-empty*
entry as a hit, so the second card searches again: both cards issue two
network searches (title, then topic) — the second card does not issue
zero as the claim requires. -/
theorem c5_counterexample :
    ((queryGpt envNone [] [] "topic" [cardT, cardT]).1.map (fun o => o.2)) = [2, 2] := by
  decide

/-- C5 (amended): within one request, a second card whose title has a
*non-empty* cache entry takes the cached result with no further network
search (zero searches, states untouched, image drawn by `random.choice`
from the cached list, caption kept); on a cache miss the search result is
stored under the title even when it is empty — but an empty stored result
does not count as a hit, so only a non-empty first result spares the
second card a repeated search. -/
theorem c5_amended_cache (env : Env) (uM : UrlMemo) (mm : MatchMemo) (cache : TitleCache)
    (mainTopic title content caption : String) :
    (∀ l, cacheHitNonempty cache title = some l →
      invalidBranch env uM mm cache mainTopic title content caption
        = ((some (pyChoice env l), caption), uM, mm, cache, 0)) ∧
    (cacheHitNonempty cache title = none →
      ∃ si, (invalidBranch env uM mm cache mainTopic title content caption).2.2.2.1
        = (title, si) :: cache) ∧
    (∀ si : List String, si ≠ [] → cacheHitNonempty ((title, si) :: cache) title = some si) := by
  refine ⟨?_, ?_, ?_⟩
  · intro l hl
    simp only [invalidBranch, invalidCore, hl]
    simp
  · intro hl
    simp only [invalidBranch, invalidCore, hl, invalidSearch]
    split
    · exact ⟨_, rfl⟩
    · exact ⟨_, rfl⟩
  · intro si hsi
    simp only [cacheHitNonempty, cacheLookup, List.find?]
    simp only [decide_True]
    cases si with
    | nil => exact absurd rfl hsi
    | cons a t => rfl

/-- Witness for the amended C5: a concrete non-empty cache entry is used
with zero searches. -/
theorem c5_witness :
    invalidBranch envNone [] [] [("t", ["u"])] "m" "t" "c" "cap"
      = ((some "u", "cap"), [], [], [("t", ["u"])], 0) := by
  rw [(c5_amended_cache envNone [] [] [("t", ["u"])] "m" "t" "c" "cap").1 ["u"] (by decide)]
  rfl

theorem verifyUrl_ok (env : Env) (m : UrlMemo) (hm : UrlMemoOk env m) (url : String) :
    (verifyUrlExists env m url).1 = verifyBody env url ∧
    UrlMemoOk env (verifyUrlExists env m url).2.1 := by
  unfold verifyUrlExists
  cases hv : memoLookup m url with
  | some b =>
    rw [memoLookup] at hv
    obtain ⟨p0, hfind, hv2⟩ := Option.map_eq_some'.mp hv
    have hmem := List.mem_of_find?_eq_some hfind
    have hkey := List.find?_some hfind
    simp only [beq_iff_eq] at hkey
    have hbm : b = verifyBody env url := by
      rw [← hv2, hm p0 hmem, hkey]
    refine ⟨hbm, ?_⟩
    intro p hp
    rcases List.mem_cons.mp hp with rfl | hp2
    · exact hbm
    · exact hm p (List.mem_of_mem_filter hp2)
  | none =>
    refine ⟨rfl, ?_⟩
    intro p hp
    have hp2 := List.mem_of_mem_take hp
    rcases List.mem_cons.mp hp2 with rfl | hp3
    · rfl
    · exact hm p (List.mem_of_mem_filter hp3)

theorem processAttemptFiles_sound (env : Env) (keywords : List String) :
    ∀ (files : List String) (m : UrlMemo), UrlMemoOk env m →
      (∀ p ∈ (processAttemptFiles env m keywords files).1, verifyBody env p.1 = true) ∧
      UrlMemoOk env (processAttemptFiles env m keywords files).2 := by
  intro files
  induction files with
  | nil => exact fun m hm => ⟨fun p hp => absurd hp (List.not_mem_nil p), hm⟩
  | cons fn rest ih =>
    intro m hm
    cases hk : keepFilename? fn with
    | none =>
      simp only [processAttemptFiles, hk]
      exact ih m hm
    | some name =>
      simp only [processAttemptFiles, hk]
      obtain ⟨hres, hok⟩ := verifyUrl_ok env m hm (fileUrl name)
      obtain ⟨htail, htok⟩ := ih (verifyUrlExists env m (fileUrl name)).2.1 hok
      split
      · rename_i hcond
        refine ⟨?_, htok⟩
        intro p hp
        rcases List.mem_cons.mp hp with rfl | hp2
        · rw [← hres]; exact hcond
        · exact htail p hp2
      · exact ⟨htail, htok⟩

theorem mem_insertDesc {x y : String × Nat} {l : List (String × Nat)}
    (h : y ∈ insertDesc x l) : y = x ∨ y ∈ l := by
  induction l with
  | nil =>
    rw [insertDesc] at h
    rcases List.mem_cons.mp h with rfl | h2
    · exact Or.inl rfl
    · exact absurd h2 (List.not_mem_nil y)
  | cons z zs ih =>
    rw [insertDesc] at h
    split at h
    · rcases List.mem_cons.mp h with rfl | h2
      · exact Or.inl rfl
      · exact Or.inr h2
    · rcases List.mem_cons.mp h with rfl | h2
      · exact Or.inr (List.mem_cons_self _ _)
      · rcases ih h2 with h3 | h3
        · exact Or.inl h3
        · exact Or.inr (List.mem_cons_of_mem _ h3)

theorem mem_sortDesc {y : String × Nat} :
    ∀ {l : List (String × Nat)}, y ∈ sortDesc l → y ∈ l := by
  intro l
  induction l with
  | nil => intro h; rw [sortDesc] at h; exact h
  | cons x xs ih =>
    intro h
    rw [sortDesc] at h
    rcases mem_insertDesc h with rfl | h2
    · exact List.mem_cons_self _ _
    · exact List.mem_cons_of_mem _ (ih h2)

theorem addResults_sound (env : Env) :
    ∀ (l : List (String × Nat)) (acc : List String),
      AllVerified env acc → (∀ p ∈ l, verifyBody env p.1 = true) →
      AllVerified env (addResults acc l) := by
  intro l
  induction l with
  | nil => exact fun acc ha _ => ha
  | cons p rest ih =>
    intro acc ha hl
    rw [addResults]
    refine ih _ ?_ (fun q hq => hl q (List.mem_cons_of_mem _ hq))
    intro u hu
    by_cases hc : acc.contains p.1 = true
    · rw [if_pos hc] at hu
      exact ha u hu
    · rw [if_neg hc] at hu
      rcases List.mem_append.mp hu with h1 | h1
      · exact ha u h1
      · have hup : u = p.1 := by
          rcases List.mem_cons.mp h1 with h2 | h2
          · exact h2
          · exact absurd h2 (List.not_mem_nil u)
        rw [hup]
        exact hl p (List.mem_cons_self _ _)

theorem attemptTop_sound (env : Env) (m : UrlMemo) (keywords files : List String)
    (hm : UrlMemoOk env m) :
    (∀ p ∈ (attemptTop env m keywords files).1, verifyBody env p.1 = true) ∧
    UrlMemoOk env (attemptTop env m keywords files).2 := by
  obtain ⟨h1, h2⟩ := processAttemptFiles_sound env keywords files m hm
  simp only [attemptTop]
  refine ⟨?_, h2⟩
  intro p hp
  exact h1 p (mem_sortDesc (List.mem_of_mem_take hp))

theorem searchLoop_sound (env : Env) (keywords : List String) :
    ∀ (strats : List String) (acc : List String) (m : UrlMemo),
      UrlMemoOk env m → AllVerified env acc →
      AllVerified env (searchLoop env m keywords acc strats).1 ∧
      UrlMemoOk env (searchLoop env m keywords acc strats).2 := by
  intro strats
  induction strats with
  | nil =>
    intro acc m hm ha
    exact ⟨fun u hu => absurd hu (List.not_mem_nil u), hm⟩
  | cons term rest ih =>
    intro acc m hm ha
    cases he : env.apiFiles term with
    | none =>
      simp only [searchLoop, he]
      exact ih acc m hm ha
    | some files =>
      simp only [searchLoop, he]
      obtain ⟨htop, hmt⟩ := attemptTop_sound env m keywords files hm
      have hacc1 : AllVerified env (addResults acc (attemptTop env m keywords files).1) :=
        addResults_sound env _ acc ha htop
      split
      · exact ih _ _ hmt hacc1
      · exact ⟨hacc1, hmt⟩

theorem searchCore_sound (env : Env) (m : UrlMemo) (topic : String) (retry : Nat)
    (hm : UrlMemoOk env m) :
    AllVerified env (searchWikipediaImagesCore env m topic retry).1 ∧
    UrlMemoOk env (searchWikipediaImagesCore env m topic retry).2 := by
  unfold searchWikipediaImagesCore
  cases hs : searchStrategies? topic with
  | some strats =>
    exact searchLoop_sound env (searchKeywords topic) (strats.take retry) [] m hm
      (fun u hu => absurd hu (List.not_mem_nil u))
  | none => exact ⟨fun u hu => absurd hu (List.not_mem_nil u), hm⟩

theorem searchTitleTopic_sound (env : Env) (uM : UrlMemo) (mainTopic title : String)
    (hm : UrlMemoOk env uM) :
    AllVerified env (searchTitleTopic env uM mainTopic title).1.1 ∧
    UrlMemoOk env (searchTitleTopic env uM mainTopic title).1.2 := by
  obtain ⟨h1, h2⟩ := searchCore_sound env uM title 6 hm
  simp only [searchTitleTopic]
  split
  · exact searchCore_sound env _ mainTopic 6 h2
  · exact ⟨h1, h2⟩

theorem firstMatchLoop_mem (env : Env) (caption title content : String) :
    ∀ (results : List String) (mm : MatchMemo) (uv : String × String),
      (firstMatchLoop env mm caption title content results).1 = some uv →
      uv.1 ∈ results := by
  intro results
  induction results with
  | nil =>
    intro mm uv h
    simp only [firstMatchLoop] at h
    exact Option.noConfusion h
  | cons u rest ih =>
    intro mm uv h
    simp only [firstMatchLoop] at h
    split at h
    · simp only at h
      cases h
      exact List.mem_cons_self _ _
    · exact List.mem_cons_of_mem _ (ih _ uv h)

theorem selectFromResults_mem (env : Env) (mm : MatchMemo) (caption title content : String)
    (results : List String) (u : String)
    (h : (selectFromResults env mm caption title content results).1.1 = some u) :
    u ∈ results := by
  unfold selectFromResults at h
  cases hFL : firstMatchLoop env mm caption title content results with
  | mk o mm1 =>
    rw [hFL] at h
    cases o with
    | some uv =>
      simp only at h
      cases h
      have h2 : (firstMatchLoop env mm caption title content results).1 = some uv := by
        rw [hFL]
      exact firstMatchLoop_mem env caption title content results mm uv h2
    | none =>
      cases results with
      | nil => simp at h
      | cons r t =>
        simp only at h
        cases h
        exact List.mem_cons_self _ _

theorem cacheHitNonempty_eq (cache : TitleCache) (title : String) (l : List String)
    (h : cacheHitNonempty cache title = some l) :
    cacheLookup cache title = some l ∧ l.isEmpty = false := by
  unfold cacheHitNonempty at h
  cases hl : cacheLookup cache title with
  | none => rw [hl] at h; exact Option.noConfusion h
  | some l0 =>
    rw [hl] at h
    change (if l0.isEmpty = true then none else some l0) = some l at h
    by_cases he : l0.isEmpty = true
    · rw [if_pos he] at h
      exact Option.noConfusion h
    · rw [if_neg he] at h
      obtain rfl : l0 = l := Option.some.inj h
      exact ⟨rfl, Bool.eq_false_iff.mpr he⟩

theorem cacheHitNonempty_sound (env : Env) (cache : TitleCache) (title : String)
    (l : List String) (hc : CacheOk env cache)
    (h : cacheHitNonempty cache title = some l) : AllVerified env l := by
  obtain ⟨hl, _⟩ := cacheHitNonempty_eq cache title l h
  rw [cacheLookup] at hl
  obtain ⟨p0, hfind, hv2⟩ := Option.map_eq_some'.mp hl
  have hmem := List.mem_of_find?_eq_some hfind
  rw [← hv2]
  exact hc p0 hmem

theorem cacheHitNonempty_ne_nil (cache : TitleCache) (title : String) (l : List String)
    (h : cacheHitNonempty cache title = some l) : l ≠ [] := by
  obtain ⟨_, he⟩ := cacheHitNonempty_eq cache title l h
  intro hnil
  rw [hnil] at he
  simp at he

theorem pyChoice_mem (env : Env) (l : List String) (h : l ≠ []) : pyChoice env l ∈ l := by
  have hlen : 0 < l.length := List.length_pos.mpr h
  have hidx : env.pick l % l.length < l.length := Nat.mod_lt _ hlen
  unfold pyChoice
  rw [List.getD_eq_getElem?_getD, List.getElem?_eq_getElem hidx]
  exact List.getElem_mem hidx

theorem invalidSearch_sound (env : Env) (uM : UrlMemo) (mm : MatchMemo)
    (cache : TitleCache) (mainTopic title content caption : String)
    (hm : UrlMemoOk env uM) (hc : CacheOk env cache) :
    (∀ u, (invalidSearch env uM mm cache mainTopic title content caption).1.1 = some u →
      verifyBody env u = true) ∧
    UrlMemoOk env (invalidSearch env uM mm cache mainTopic title content caption).2.1 ∧
    CacheOk env (invalidSearch env uM mm cache mainTopic title content caption).2.2.2.1 := by
  obtain ⟨hall, hm2⟩ := searchTitleTopic_sound env uM mainTopic title hm
  simp only [invalidSearch]
  split
  · refine ⟨?_, hm2, ?_⟩
    · intro u hu
      simp at hu
    · intro p hp
      rcases List.mem_cons.mp hp with rfl | hp2
      · exact hall
      · exact hc p hp2
  · refine ⟨?_, hm2, ?_⟩
    · intro u hu
      simp only at hu
      exact hall u (selectFromResults_mem env mm caption title content _ u hu)
    · intro p hp
      rcases List.mem_cons.mp hp with rfl | hp2
      · exact hall
      · exact hc p hp2

theorem invalidCore_sound (env : Env) (uM : UrlMemo) (mm : MatchMemo)
    (cache : TitleCache) (mainTopic title content caption : String)
    (hm : UrlMemoOk env uM) (hc : CacheOk env cache) :
    (∀ u, (invalidCore env uM mm cache mainTopic title content caption).1.1 = some u →
      verifyBody env u = true) ∧
    UrlMemoOk env (invalidCore env uM mm cache mainTopic title content caption).2.1 ∧
    CacheOk env (invalidCore env uM mm cache mainTopic title content caption).2.2.2.1 := by
  unfold invalidCore
  cases hhit : cacheHitNonempty cache title with
  | some l =>
    refine ⟨?_, hm, hc⟩
    intro u hu
    simp only at hu
    cases hu
    exact cacheHitNonempty_sound env cache title l hc hhit _
      (pyChoice_mem env l (cacheHitNonempty_ne_nil cache title l hhit))
  | none =>
    exact invalidSearch_sound env uM mm cache mainTopic title content caption hm hc

theorem invalidBranch_sound (env : Env) (uM : UrlMemo) (mm : MatchMemo)
    (cache : TitleCache) (mainTopic title content caption : String)
    (hm : UrlMemoOk env uM) (hc : CacheOk env cache) :
    (∀ u, (invalidBranch env uM mm cache mainTopic title content caption).1.1 = some u →
      verifyBody env u = true) ∧
    UrlMemoOk env (invalidBranch env uM mm cache mainTopic title content caption).2.1 ∧
    CacheOk env (invalidBranch env uM mm cache mainTopic title content caption).2.2.2.1 := by
  obtain ⟨h1, h2, h3⟩ :=
    invalidCore_sound env uM mm cache mainTopic title content caption hm hc
  simp only [invalidBranch]
  exact ⟨h1, h2, h3⟩

theorem validBranch_sound (env : Env) (uM : UrlMemo) (mm : MatchMemo)
    (title content image caption : String)
    (hm : UrlMemoOk env uM) (himg : verifyBody env image = true) :
    verifyBody env (validBranch env uM mm title content image caption).1.1 = true ∧
    UrlMemoOk env (validBranch env uM mm title content image caption).2.1 := by
  simp only [validBranch]
  split
  · exact ⟨himg, hm⟩
  · obtain ⟨hall, hm2⟩ := searchCore_sound env uM title 6 hm
    split
    · exact ⟨himg, hm2⟩
    · refine ⟨?_, hm2⟩
      cases hsel : (selectFromResults env
          (verifyImageCaptionMatch env mm image caption title content).2.1
          caption title content (searchWikipediaImagesCore env uM title 6).1).1.1 with
      | none =>
        simp only [Option.getD_none]
        exact himg
      | some u =>
        simp only [Option.getD_some]
        exact hall u (selectFromResults_mem env _ caption title content _ u hsel)

theorem checkImage_sound (env : Env) (uM : UrlMemo) (image1 : String)
    (hm : UrlMemoOk env uM) :
    ((checkImage env uM image1).1 = true → verifyBody env image1 = true) ∧
    UrlMemoOk env (checkImage env uM image1).2 := by
  simp only [checkImage]
  split
  · obtain ⟨h1, h2⟩ := verifyUrl_ok env uM hm image1
    refine ⟨fun h => ?_, h2⟩
    rw [← h1]
    exact h
  · exact ⟨fun h => Bool.noConfusion h, hm⟩

theorem processCard_c2 (env : Env) (uM : UrlMemo) (mm : MatchMemo) (cache : TitleCache)
    (mainTopic : String) (c : Card) (hm : UrlMemoOk env uM) (hc : CacheOk env cache) :
    (∀ u, (processCard env uM mm cache mainTopic c).1.image = some u →
      verifyBody env u = true) ∧
    UrlMemoOk env (processCard env uM mm cache mainTopic c).2.1 ∧
    CacheOk env (processCard env uM mm cache mainTopic c).2.2.2.1 := by
  simp only [processCard]
  obtain ⟨hchk, hm1⟩ := checkImage_sound env uM (wikimediaToWikipediaUrl (pyStrip c.image)) hm
  split
  · rename_i hcond
    obtain ⟨hv, hm2⟩ := validBranch_sound env _ mm c.title c.content _ c.caption hm1
      (hchk hcond)
    refine ⟨?_, hm2, hc⟩
    intro u hu
    simp only at hu
    cases hu
    exact hv
  · obtain ⟨hi, hm2, hc2⟩ :=
      invalidBranch_sound env _ mm cache mainTopic c.title c.content c.caption hm1 hc
    refine ⟨?_, hm2, hc2⟩
    intro u hu
    simp only at hu
    exact hi u hu

theorem processCards_c2 (env : Env) (mainTopic : String) :
    ∀ (cards : List Card) (uM : UrlMemo) (mm : MatchMemo) (cache : TitleCache),
      UrlMemoOk env uM → CacheOk env cache →
      ∀ o ∈ (processCards env uM mm cache mainTopic cards).1, ∀ u, o.1.image = some u →
        verifyBody env u = true := by
  intro cards
  induction cards with
  | nil =>
    intro uM mm cache hm hc o ho
    simp only [processCards] at ho
    exact absurd ho (List.not_mem_nil o)
  | cons c rest ih =>
    intro uM mm cache hm hc o ho
    obtain ⟨h1, h2, h3⟩ := processCard_c2 env uM mm cache mainTopic c hm hc
    simp only [processCards] at ho
    rcases List.mem_cons.mp ho with rfl | ho2
    · exact fun u hu => h1 u hu
    · exact ih _ _ _ h2 h3 o ho2

/-- C2: every non-absent image in a finalized card passed existence
verification.  Starting from any consistent verification memo, each
output card with `image = some u` has `verifyBody env u = true` — the
pure verdict of the Existence Verifier for `u` (the original image is
accepted only after verification, and every alternative comes from the
searcher, which only admits verified URLs, directly or through the
per-request cache).  In particular a model-proposed `"not-a-url"`, which
has no scheme and can never verify, cannot appear in any finalized
card. -/
theorem c2_image_verified (env : Env) (uM : UrlMemo) (mm : MatchMemo) (prompt : String)
    (cards : List Card) (hm : UrlMemoOk env uM) :
    ∀ o ∈ (queryGpt env uM mm prompt cards).1, ∀ u, o.1.image = some u →
      verifyBody env u = true ∧ u ≠ "not-a-url" := by
  intro o ho u hu
  simp only [queryGpt] at ho
  have hver := processCards_c2 env _ cards uM mm [] hm
    (fun p hp => absurd hp (List.not_mem_nil p)) o ho u hu
  refine ⟨hver, fun hequ => ?_⟩
  rw [hequ] at hver
  have h0 : urlHasScheme "not-a-url" = false := by decide
  rw [verifyBody, h0] at hver
  simp at hver

/-! ### C1: caption non-empty implies image present -/

theorem invalidBranch_caption_clear (env : Env) (uM : UrlMemo) (mm : MatchMemo)
    (cache : TitleCache) (mainTopic title content caption : String) :
    (invalidBranch env uM mm cache mainTopic title content caption).1.1 = none →
    (invalidBranch env uM mm cache mainTopic title content caption).1.2 = "" := by
  intro h
  simp only [invalidBranch] at h ⊢
  rw [if_pos h]

theorem processCard_c1 (env : Env) (uM : UrlMemo) (mm : MatchMemo) (cache : TitleCache)
    (mainTopic : String) (c : Card) :
    (processCard env uM mm cache mainTopic c).1.image = none →
    (processCard env uM mm cache mainTopic c).1.caption = "" := by
  intro h
  simp only [processCard] at h ⊢
  split at h
  · simp at h
  · rename_i hchk
    rw [if_neg hchk]
    simp only at h
    exact invalidBranch_caption_clear env _ mm cache mainTopic c.title c.content c.caption h

theorem processCards_c1 (env : Env) (mainTopic : String) :
    ∀ (cards : List Card) (uM : UrlMemo) (mm : MatchMemo) (cache : TitleCache),
      ∀ o ∈ (processCards env uM mm cache mainTopic cards).1,
        o.1.image = none → o.1.caption = "" := by
  intro cards
  induction cards with
  | nil =>
    intro uM mm cache o ho
    simp only [processCards] at ho
    exact absurd ho (List.not_mem_nil o)
  | cons c rest ih =>
    intro uM mm cache o ho
    simp only [processCards] at ho
    rcases List.mem_cons.mp ho with rfl | ho2
    · exact processCard_c1 env uM mm cache mainTopic c
    · exact ih _ _ _ o ho2

/-- C1: for every card finalized by the orchestrator, a non-empty caption
implies a present image — equivalently, whenever the image is absent the
caption was cleared to the empty string (lines 427-429; the valid-image
branch always yields a present image). -/
theorem c1_caption_implies_image (env : Env) (uM : UrlMemo) (mm : MatchMemo)
    (prompt : String) (cards : List Card) :
    ∀ o ∈ (queryGpt env uM mm prompt cards).1, o.1.caption ≠ "" → o.1.image ≠ none := by
  intro o ho hcap himg
  apply hcap
  simp only [queryGpt] at ho
  exact processCards_c1 env _ cards uM mm [] o ho himg

/-- Witness for C1: a concrete run whose single output card has a
non-empty caption, hence a present image. -/
theorem c1_witness :
    ((⟨"T", "C", some "https://a/x.png", "cap!"⟩ : FinalCard), (0 : Nat)).1.image ≠ none :=
  c1_caption_implies_image envOk [] [] "p" [cardV]
    ((⟨"T", "C", some "https://a/x.png", "cap!"⟩ : FinalCard), (0 : Nat))
    (by decide) (by decide)

/-- Witness for C2: the image of the concrete run's output card carries a
positive pure verification verdict and is not `"not-a-url"`. -/
theorem c2_witness :
    verifyBody envOk "https://a/x.png" = true ∧ "https://a/x.png" ≠ "not-a-url" :=
  c2_image_verified envOk [] [] "p" [cardV]
    (fun p hp => absurd hp (List.not_mem_nil p))
    ((⟨"T", "C", some "https://a/x.png", "cap!"⟩ : FinalCard), (0 : Nat)) (by decide)
    "https://a/x.png" rfl

end CardGen

